import Mathlib

/-!
Verification of the ReactAIAgent control loop and task executor.

The development shallowly embeds the agent script (the second document of
`src/unnamed/part_000`, the plain `while` loop variant): the Node `path` /
`fs` primitives are modelled by an explicit filesystem state (an association
list of file paths to contents plus a list of existing directories), the
`exec` shell call is modelled by an oracle from command and working directory
to an outcome, and the two nested `while (true)` loops are modelled as
recursion over a finite script of planner outputs.

Fallible operations (`fs.mkdirSync` on a file path, `fs.readFileSync` on a
directory, `JSON.parse` on malformed text, a nonzero-exit shell command)
return `Except`: a `.error` corresponds to a thrown JavaScript exception,
which in the source propagates uncaught out of the inner loop.
-/

namespace ReactAgent

/-! ## String helpers

All string operations are implemented by structural recursion over the
character list, so that every definition evaluates inside the kernel. -/

/-- Split a character stream at a separator; `acc` holds the (reversed)
characters of the piece being read. -/
def splitCharsOn (sep : Char) : List Char → List Char → List String
  | acc, [] => [acc.reverse.asString]
  | acc, c :: cs =>
    if c = sep then acc.reverse.asString :: splitCharsOn sep [] cs
    else splitCharsOn sep (c :: acc) cs

/-- JavaScript `s.split(sep)` for a one-character separator (also the
behaviour of `String.prototype.split` used by the source). -/
def jsSplit (s : String) (sep : Char) : List String := splitCharsOn sep [] s.toList

/-- Join strings with a separator. -/
def joinWith (sep : String) : List String → String
  | [] => ""
  | [x] => x
  | x :: y :: t => x ++ sep ++ joinWith sep (y :: t)

/-- Is `pre` a prefix of `s` (character lists)? -/
def charsHasPre : List Char → List Char → Bool
  | [], _ => true
  | _ :: _, [] => false
  | a :: ps, b :: ss => a == b && charsHasPre ps ss

/-- Does the haystack contain `sub` at some position? -/
def jsIncludesAux (sub : List Char) : List Char → Bool
  | [] => sub.isEmpty
  | b :: t => charsHasPre sub (b :: t) || jsIncludesAux sub t

/-- JavaScript `s.includes(sub)`. -/
def jsIncludes (s sub : String) : Bool := jsIncludesAux sub.toList s.toList

/-- JavaScript `s.startsWith(pre)`. -/
def jsStartsWith (s pre : String) : Bool := charsHasPre pre.toList s.toList

/-- JavaScript `s.toLowerCase()`. -/
def jsToLower (s : String) : String := (s.toList.map Char.toLower).asString

/-- JavaScript `s.trim()`: strip leading and trailing whitespace. -/
def jsTrim (s : String) : String :=
  (((s.toList.dropWhile Char.isWhitespace).reverse.dropWhile
      Char.isWhitespace).reverse).asString

/-! ## Path model: `path.resolve` and `path.dirname` on POSIX paths -/

/-- Normalize a list of raw path components: drop empty and `.` components,
let `..` pop the previous component (staying at the root when there is
none), as `path.resolve` does. -/
def normalizeComponents : List String → List String → List String
  | acc, [] => acc
  | acc, c :: cs =>
    if c = "" ∨ c = "." then normalizeComponents acc cs
    else if c = ".." then normalizeComponents acc.dropLast cs
    else normalizeComponents (acc ++ [c]) cs

/-- Normalize an absolute path string (components separated by `/`). -/
def normalizePath (s : String) : String :=
  "/" ++ joinWith "/" (normalizeComponents [] (jsSplit s '/'))

/-- `path.resolve(cur, p)`: absolute `p` stands alone, a relative `p` is
joined onto `cur`; the result is normalized.  `cur` is always absolute in
the agent (it starts at `process.cwd()` and is only ever replaced by
resolved paths). -/
def resolvePath (cur p : String) : String :=
  if jsStartsWith p "/" then normalizePath p else normalizePath (cur ++ "/" ++ p)

/-- `path.dirname` of a normalized absolute path. -/
def dirname (p : String) : String :=
  "/" ++ joinWith "/" (normalizeComponents [] (jsSplit p '/')).dropLast

/-- The directories `fs.mkdirSync(p, recursive)` needs along the way:
every strict ancestor of `p` (from the root up), and `p` itself. -/
def pathAncestors (p : String) : List String :=
  let comps := normalizeComponents [] (jsSplit p '/')
  ((List.range comps.length).map
    (fun n => "/" ++ joinWith "/" (comps.take n))) ++ [p]

/-! ## Filesystem and agent state -/

deriving instance DecidableEq for Except

/-- The modelled filesystem: files as an association list from absolute
path to content, plus the list of existing directories. -/
structure FsState where
  files : List (String × String)
  dirs : List String
deriving DecidableEq, Repr

/-- The agent's mutable state: the `currentDir` cursor together with the
filesystem it acts on. -/
structure AgentState where
  currentDir : String
  fs : FsState
deriving DecidableEq, Repr

/-- Errors that surface as thrown exceptions or rejected promises. -/
inductive ExecErr where
  /-- `exec` reported a nonzero exit; `runShellCommand` rejects with it. -/
  | shellFailure (command stderr : String)
  /-- A thrown `fs` error (EEXIST, EISDIR, ENOTDIR) or type error. -/
  | fsError
  /-- `JSON.parse` threw on a malformed planner reply. -/
  | jsonError
deriving DecidableEq, Repr

/-- Look up the content of the file stored at path `p`. -/
def findFile : List (String × String) → String → Option String
  | [], _ => none
  | e :: t, p => if e.1 = p then some e.2 else findFile t p

/-- Drop any binding for path `p`. -/
def eraseKey (files : List (String × String)) (p : String) :
    List (String × String) :=
  files.filter (fun e => e.1 != p)

/-- Add a directory to the set if it is not already present. -/
def addDir (ds : List String) (a : String) : List String :=
  if a ∈ ds then ds else ds ++ [a]

/-- `fs.mkdirSync(p, { recursive: true })`: creates `p` and all missing
ancestors; throws when `p` or an ancestor exists as a regular file. -/
def mkdirRecursive (fs : FsState) (p : String) : Except ExecErr FsState :=
  if (pathAncestors p).any (fun a => (findFile fs.files a).isSome) then
    .error .fsError
  else
    .ok { fs with dirs := (pathAncestors p).foldl addDir fs.dirs }

/-! ## Task executor primitives (source lines 550–709 of part_000) -/

/-- Outcome of one `exec` call: the callback's `(error, stdout, stderr)`. -/
inductive ShellResult where
  | success (stdout stderr : String)
  | failure (stderr : String)
deriving DecidableEq, Repr

/-- The external shell, abstracted: command and working directory to
outcome.  The modelled filesystem is not touched by shell commands; the
claims under verification only concern the failure/success protocol. -/
def ShellOracle : Type := String → String → ShellResult

/-- `runShellCommand`: runs `command` with `cwd: currentDir`; resolves with
stdout, rejects with a `ShellFailure` carrying stderr on nonzero exit. -/
def runShellCommand (oracle : ShellOracle) (st : AgentState)
    (command : String) : Except ExecErr String :=
  match oracle command st.currentDir with
  | .success stdout _ => .ok stdout
  | .failure stderr => .error (.shellFailure command stderr)

/-- `writeFile`: resolve against `currentDir`, create parent directories,
create-or-overwrite the file.  Throws when the parent chain contains a
file or when the target itself is an existing directory. -/
def writeFile (st : AgentState) (targetPath content : String) :
    Except ExecErr AgentState :=
  let fullPath := resolvePath st.currentDir targetPath
  match mkdirRecursive st.fs (dirname fullPath) with
  | .error e => .error e
  | .ok fs1 =>
    if fullPath ∈ fs1.dirs then .error .fsError
    else .ok { st with
      fs := { fs1 with files := (fullPath, content) :: eraseKey fs1.files fullPath } }

/-- `readFile`: returns the content when the resolved path is a file,
`null` (here `none`) when nothing exists there; `fs.readFileSync` throws
when the existing entry is a directory. -/
def readFile (st : AgentState) (targetPath : String) :
    Except ExecErr (Option String) :=
  let fullPath := resolvePath st.currentDir targetPath
  match findFile st.fs.files fullPath with
  | some content => .ok (some content)
  | none => if fullPath ∈ st.fs.dirs then .error .fsError else .ok none

/-- `editFile`: overwrite the file when it exists, warn and do nothing
when nothing exists at the resolved path (directory target throws). -/
def editFile (st : AgentState) (targetPath content : String) :
    Except ExecErr AgentState :=
  let fullPath := resolvePath st.currentDir targetPath
  match findFile st.fs.files fullPath with
  | some _ => .ok { st with
      fs := { st.fs with
        files := (fullPath, content) :: eraseKey st.fs.files fullPath } }
  | none => if fullPath ∈ st.fs.dirs then .error .fsError else .ok st

/-- `changeDirectory`: move the cursor when the resolved target is an
existing directory, otherwise `mkdirSync` it recursively and move the
cursor; the `mkdirSync` call throws when the target or an ancestor is an
existing file. -/
def changeDirectory (st : AgentState) (newPath : String) :
    Except ExecErr AgentState :=
  let targetPath := resolvePath st.currentDir newPath
  if targetPath ∈ st.fs.dirs then .ok { st with currentDir := targetPath }
  else
    match mkdirRecursive st.fs targetPath with
    | .error e => .error e
    | .ok fs1 => .ok { currentDir := targetPath, fs := fs1 }

/-- Is `q` equal to `base` or strictly below it? -/
def underPath (base q : String) : Bool :=
  q == base || jsStartsWith q (base ++ "/")

/-- Remove one resolved path: `rmSync` recursive for a directory,
`unlinkSync` for a file, silently skip when nothing exists. -/
def removeEntry (fs : FsState) (p : String) : FsState :=
  if p ∈ fs.dirs then
    { files := fs.files.filter (fun e => !(underPath p e.1)),
      dirs := fs.dirs.filter (fun d => !(underPath p d)) }
  else if (findFile fs.files p).isSome then
    { fs with files := eraseKey fs.files p }
  else fs

/-- `cleanUp`: remove each path in order (resolving against the current
cursor as it goes). -/
def cleanUp (st : AgentState) (paths : List String) : AgentState :=
  paths.foldl
    (fun s q => { s with fs := removeEntry s.fs (resolvePath s.currentDir q) }) st

/-- `fileContains`: note the source resolves `filePath.trim()`, unlike
every other path-taking task. -/
def fileContains (st : AgentState) (filePath searchText : String) :
    Except ExecErr Bool :=
  let fullPath := resolvePath st.currentDir (jsTrim filePath)
  match findFile st.fs.files fullPath with
  | some content => .ok (jsIncludes content searchText)
  | none => if fullPath ∈ st.fs.dirs then .error .fsError else .ok false

/-- Does a stderr line carry an error marker: case-insensitive `error`,
or the literal `ERR_`? -/
def errMarkerLine (line : String) : Bool :=
  jsIncludes (jsToLower line) "error" || jsIncludes line "ERR_"

/-- `parseShellErrors`: split stderr on newlines and push the trimmed form
of every line carrying an error marker, in order. -/
def parseShellErrors (stderr : String) : List String :=
  (jsSplit stderr '\n').foldl
    (fun errs line => if errMarkerLine line then errs ++ [jsTrim line] else errs)
    []

/-- What the spec sentence for the `errors` task literally promises:
exactly the matching lines themselves, in order (no trimming).  Stated for
comparison with `parseShellErrors`, which the source defines. -/
def specErrorLines (stderr : String) : List String :=
  (jsSplit stderr '\n').filter (fun line => errMarkerLine line)

/-! ## `executeTask`: dispatch on the task kind -/

/-- A task's primary argument: a string for most kinds, an array of paths
for `clean`. -/
inductive TaskInput where
  | str (s : String)
  | paths (ps : List String)
deriving DecidableEq, Repr

/-- One declarative task, as destructured by `executeTask`. -/
structure Task where
  type : String
  input : TaskInput
  content : String
deriving DecidableEq, Repr

/-- What `executeTask` evaluates to: `undefined` for most kinds, the read
text (or `null`) for `read`, the membership test for `contains`. -/
inductive TaskResult where
  | undef
  | text (s : Option String)
  | flag (b : Bool)
deriving DecidableEq, Repr

/-- `executeTask`: the `switch (type)` dispatcher.  A `.error` is a thrown
exception or rejected promise escaping the call.  `log`, `errors` and
`suggestions` only print (their computed values are discarded), and an
unknown type logs and falls through, returning `undefined`. -/
def executeTask (oracle : ShellOracle) (st : AgentState) (task : Task) :
    Except ExecErr (AgentState × TaskResult) :=
  if task.type = "shell" then
    match task.input with
    | .str cmd =>
      match runShellCommand oracle st cmd with
      | .error e => .error e
      | .ok _ => .ok (st, .undef)
    | .paths _ => .error .fsError
  else if task.type = "write" then
    match task.input with
    | .str p =>
      match writeFile st p task.content with
      | .error e => .error e
      | .ok st1 => .ok (st1, .undef)
    | .paths _ => .error .fsError
  else if task.type = "read" then
    match task.input with
    | .str p =>
      match readFile st p with
      | .error e => .error e
      | .ok r => .ok (st, .text r)
    | .paths _ => .error .fsError
  else if task.type = "edit" then
    match task.input with
    | .str p =>
      match editFile st p task.content with
      | .error e => .error e
      | .ok st1 => .ok (st1, .undef)
    | .paths _ => .error .fsError
  else if task.type = "cd" then
    match task.input with
    | .str p =>
      match changeDirectory st p with
      | .error e => .error e
      | .ok st1 => .ok (st1, .undef)
    | .paths _ => .error .fsError
  else if task.type = "clean" then
    match task.input with
    | .paths ps => .ok (cleanUp st ps, .undef)
    | .str _ => .error .fsError
  else if task.type = "contains" then
    match task.input with
    | .str p =>
      match fileContains st p task.content with
      | .error e => .error e
      | .ok b => .ok (st, .flag b)
    | .paths _ => .error .fsError
  else if task.type = "log" then .ok (st, .undef)
  else if task.type = "errors" then
    match task.input with
    | .str _ => .ok (st, .undef)
    | .paths _ => .error .fsError
  else if task.type = "suggestions" then
    match task.input with
    | .str _ => .ok (st, .undef)
    | .paths _ => .error .fsError
  else .ok (st, .undef)

/-! ## Conversation history and the control loop (lines 1082–1161) -/

/-- Message roles in the history. -/
inductive Role where
  | system
  | user
  | assistant
deriving DecidableEq, Repr

/-- One role-tagged message of the history array `message`. -/
structure Msg where
  role : Role
  content : String
deriving DecidableEq, Repr

/-- Stand-in for the fixed four-phase system instruction (the prose of the
constant does not enter any claim). -/
def systemPromptText : String :=
  "You are an Expert Developer. Your working methodology follows 4 main steps: Analyze, Convert, Action, Output."

/-- The single system message the history starts from. -/
def systemMsg : Msg := { role := .system, content := systemPromptText }

/-- `const message = [\x7b role: 'system', content: system_prompt \x7d]`. -/
def initialMessages : List Msg := [systemMsg]

/-- The user message appended when a prompt is ingested. -/
def userMsg (s : String) : Msg := { role := .user, content := s }

/-- A parsed planner reply, as the loop reads its fields; `none` is an
absent (`undefined`) field. -/
structure Reply where
  step : Option String
  fType : Option String
  fInput : Option TaskInput
  fContent : Option String
deriving DecidableEq, Repr

/-- Render of an optional string field for the serialized record. -/
def showOptS : Option String → String
  | none => "undefined"
  | some s => s

/-- Render of the `fInput` field for the serialized record. -/
def showOptI : Option TaskInput → String
  | none => "undefined"
  | some (.str s) => s
  | some (.paths ps) => "[" ++ joinWith "," ps ++ "]"

/-- `JSON.stringify(parsed_result)`, abstracted to a fixed rendering of
the four fields the loop reads (the exact text enters no claim). -/
def serializeReply (r : Reply) : String :=
  "\x7b step: " ++ showOptS r.step ++ ", fType: " ++ showOptS r.fType ++
    ", fInput: " ++ showOptI r.fInput ++ ", fContent: " ++
    showOptS r.fContent ++ " \x7d"

/-- The assistant message the loop pushes for a processed reply. -/
def assistantMsg (r : Reply) : Msg :=
  { role := .assistant, content := serializeReply r }

/-- One completion-endpoint round trip, from the loop's point of view:
either `JSON.parse` succeeds with a reply, or it throws. -/
inductive PlannerOutput where
  | malformed
  | reply (r : Reply)
deriving DecidableEq, Repr

/-- JavaScript truthiness of the `fType` field (`undefined` and the empty
string are falsy). -/
def truthyS : Option String → Bool
  | none => false
  | some s => s != ""

/-- The task the action branch hands to `executeTask`:
`\x7b type: fType, input: fInput, content: fContent || mt \x7d`. -/
def replyTask (r : Reply) : Task :=
  { type := r.fType.getD "", input := r.fInput.getD (.str ""),
    content := r.fContent.getD "" }

/-- Where one run of the inner `while (true)` loop can end up for a finite
script of planner outputs. -/
inductive InnerResult where
  /-- `step === 'output'`: the `break` ending the prompt cycle. -/
  | finished (msgs : List Msg) (st : AgentState)
  /-- An uncaught exception escaped the loop (there is no try/catch
  around the loop body). -/
  | crashed (msgs : List Msg) (st : AgentState) (e : ExecErr)
  /-- The script is exhausted; the loop would call the planner again. -/
  | pending (msgs : List Msg) (st : AgentState)
deriving DecidableEq, Repr

/-- The history carried by an inner-loop result. -/
def innerMsgs : InnerResult → List Msg
  | .finished m _ => m
  | .crashed m _ _ => m
  | .pending m _ => m

/-- The inner `while (true)` loop (lines 1109–1160): parse the reply, run
the four sequential `if` branches on `parsed_result.step`, and loop.  An
unrecognized step value (including the absent one) matches no branch:
nothing is appended and the loop silently asks for the next reply. -/
def runInner (oracle : ShellOracle) :
    List PlannerOutput → List Msg → AgentState → InnerResult
  | [], msgs, st => .pending msgs st
  | .malformed :: _, msgs, st => .crashed msgs st .jsonError
  | .reply r :: rest, msgs, st =>
    let msgs1 := if r.step = some "analyze" then msgs ++ [assistantMsg r] else msgs
    let msgs2 := if r.step = some "convert" then msgs1 ++ [assistantMsg r] else msgs1
    if r.step = some "output" then .finished msgs2 st
    else if r.step = some "action" then
      if truthyS r.fType && r.fInput.isSome then
        match executeTask oracle st (replyTask r) with
        | .error e => .crashed msgs2 st e
        | .ok (st1, _) => runInner oracle rest (msgs2 ++ [assistantMsg r]) st1
      else runInner oracle rest (msgs2 ++ [assistantMsg r]) st
    else runInner oracle rest msgs2 st

/-- One outer-loop iteration's external input: the prompt typed at the
readline, and the planner outputs consumed by the inner loop it starts. -/
structure Cycle where
  prompt : String
  outputs : List PlannerOutput
deriving DecidableEq, Repr

/-- Where the outer `while (true)` loop can end up. -/
inductive OuterResult where
  /-- The user typed the `exit` sentinel. -/
  | exited (msgs : List Msg) (st : AgentState)
  /-- An uncaught exception from the inner loop ended the process. -/
  | crashed (msgs : List Msg) (st : AgentState) (e : ExecErr)
  /-- The script is exhausted mid-run. -/
  | pending (msgs : List Msg) (st : AgentState)
deriving DecidableEq, Repr

/-- The history carried by an outer-loop result. -/
def outerMsgs : OuterResult → List Msg
  | .exited m _ => m
  | .crashed m _ _ => m
  | .pending m _ => m

/-- The outer `while (true)` loop (lines 1084–1161): read a prompt,
`break` on the literal `exit`, otherwise push the user message and run
the inner loop until it breaks on an output reply. -/
def runOuter (oracle : ShellOracle) :
    List Cycle → List Msg → AgentState → OuterResult
  | [], msgs, st => .pending msgs st
  | c :: rest, msgs, st =>
    if c.prompt = "exit" then .exited msgs st
    else
      match runInner oracle c.outputs (msgs ++ [userMsg c.prompt]) st with
      | .finished msgs2 st2 => runOuter oracle rest msgs2 st2
      | .crashed msgs2 st2 e => .crashed msgs2 st2 e
      | .pending msgs2 st2 => .pending msgs2 st2

/-- Number of system-role messages in a history. -/
def countSystem (l : List Msg) : Nat :=
  (l.filter (fun m => m.role == Role.system)).length

/-- Is a planner output an intermediate reply (analyze, convert or
action), the kind the history-length claim counts? -/
def isIntermediateB : PlannerOutput → Bool
  | .malformed => false
  | .reply r =>
    r.step == some "analyze" || r.step == some "convert" || r.step == some "action"

/-! ## Concrete fixtures for witnesses and counterexamples -/

/-- An oracle whose commands all succeed with empty output. -/
def oracle0 : ShellOracle := fun _ _ => .success "" ""

/-- An oracle whose commands all exit nonzero, like `false`. -/
def failOracle : ShellOracle := fun _ _ => .failure "exit status 1"

/-- A small agent state: cursor at `/w`, no files. -/
def st0 : AgentState := { currentDir := "/w", fs := { files := [], dirs := ["/", "/w"] } }

/-- A state whose `/w/t` is a regular file. -/
def stC3 : AgentState :=
  { currentDir := "/w", fs := { files := [("/w/t", "x")], dirs := ["/", "/w"] } }

/-- A state holding the file `/w/App.jsx`. -/
def stT : AgentState :=
  { currentDir := "/w",
    fs := { files := [("/w/App.jsx", "Hello")], dirs := ["/", "/w"] } }

/-- An analyze-phase reply. -/
def analyzeR : Reply := { step := some "analyze", fType := none, fInput := none, fContent := none }

/-- A reply whose step value the inner loop has no branch for. -/
def exitR : Reply := { step := some "exit", fType := none, fInput := none, fContent := none }

/-- An action reply missing both task fields. -/
def badActionR : Reply := { step := some "action", fType := none, fInput := none, fContent := none }

/-- An action reply carrying a shell task. -/
def shellActionReply (cmd : String) : Reply :=
  { step := some "action", fType := some "shell", fInput := some (.str cmd), fContent := none }

/-- A `read` task. -/
def readTask (p : String) : Task := { type := "read", input := .str p, content := "" }

/-- A `write` task. -/
def writeTask (p c : String) : Task := { type := "write", input := .str p, content := c }

/-- A `contains` task. -/
def containsTask (p c : String) : Task := { type := "contains", input := .str p, content := c }

/-- The state produced by writing `hi` to `a.txt` from `st0`. -/
def st1W : AgentState :=
  { currentDir := "/w", fs := { files := [("/w/a.txt", "hi")], dirs := ["/", "/w"] } }

/-! ## Helper lemmas -/

theorem mem_addDir (ds : List String) (a b : String) (h : a ∈ ds) :
    a ∈ addDir ds b := by
  simp only [addDir]
  split_ifs
  · exact h
  · exact List.mem_append_left _ h

theorem mem_foldl_addDir_init (xs : List String) :
    ∀ (ds : List String) (a : String), a ∈ ds → a ∈ xs.foldl addDir ds := by
  induction xs with
  | nil => intro ds a h; exact h
  | cons x t ih => intro ds a h; exact ih _ _ (mem_addDir _ _ _ h)

theorem mem_foldl_addDir (xs : List String) :
    ∀ (ds : List String) (a : String), a ∈ xs → a ∈ xs.foldl addDir ds := by
  induction xs with
  | nil => intro ds a h; cases h
  | cons x t ih =>
    intro ds a h
    rcases List.mem_cons.mp h with rfl | h2
    · rw [List.foldl_cons]
      apply mem_foldl_addDir_init
      simp only [addDir]
      split_ifs
      · assumption
      · exact List.mem_append_right _ (List.mem_singleton.mpr rfl)
    · rw [List.foldl_cons]
      exact ih _ _ h2

theorem self_mem_pathAncestors (p : String) : p ∈ pathAncestors p := by
  simp [pathAncestors]

theorem parseShellErrors_foldl (ls : List String) :
    ∀ acc : List String,
      ls.foldl
        (fun errs line =>
          if errMarkerLine line then errs ++ [jsTrim line] else errs) acc
      = acc ++ (ls.filter (fun line => errMarkerLine line)).map jsTrim := by
  induction ls with
  | nil => intro acc; simp
  | cons h t ih =>
    intro acc
    by_cases hm : errMarkerLine h <;> simp [hm, ih, List.append_assoc]

/-! ## Claims -/

/-- C4 counterexample: on the stderr text `" error "` the source returns
the trimmed line `"error"`, not the matching line itself. -/
theorem c4_counterexample :
    parseShellErrors " error " ≠ specErrorLines " error " := by decide

/-- C4 (amended): the `errors` task splits stderr into lines and returns
the trimmed forms of exactly the lines containing an error marker
(case-insensitive `error` or the literal `ERR_`), in their original
order; in particular the empty sequence when no line matches. -/
theorem c4_errors_filter_trimmed (stderr : String) :
    parseShellErrors stderr = (specErrorLines stderr).map jsTrim := by
  unfold parseShellErrors specErrorLines
  exact parseShellErrors_foldl _ []

/-- C5: a `read` task on a path whose resolved target does not exist
returns `null` without throwing, and a `contains` task on a path whose
resolved (trimmed) target does not exist returns `false` without
throwing; both results are ordinary `.ok` values, not errors. -/
theorem c5_read_contains_missing (oracle : ShellOracle) (st : AgentState)
    (p c : String)
    (hr1 : findFile st.fs.files (resolvePath st.currentDir p) = none)
    (hr2 : resolvePath st.currentDir p ∉ st.fs.dirs)
    (hc1 : findFile st.fs.files (resolvePath st.currentDir (jsTrim p)) = none)
    (hc2 : resolvePath st.currentDir (jsTrim p) ∉ st.fs.dirs) :
    executeTask oracle st (readTask p) = .ok (st, .text none) ∧
    executeTask oracle st (containsTask p c) = .ok (st, .flag false) := by
  constructor
  · simp [executeTask, readTask, readFile, hr1, hr2]
  · simp [executeTask, containsTask, fileContains, hc1, hc2]

/-- C5 witness: reading and testing the absent `x.txt` from `st0`. -/
theorem c5_witness :
    executeTask oracle0 st0 (readTask "x.txt") = .ok (st0, .text none) ∧
    executeTask oracle0 st0 (containsTask "x.txt" "q") = .ok (st0, .flag false) :=
  c5_read_contains_missing oracle0 st0 "x.txt" "q"
    (by decide) (by decide) (by decide) (by decide)

/-- C6: when a `write` task executes successfully, an immediately
following `read` task on the same path (with `currentDir` unchanged, as
`write` never moves it) returns exactly the written content. -/
theorem c6_write_read_roundtrip (oracle : ShellOracle) (st : AgentState)
    (p c : String) (st1 : AgentState) (r : TaskResult)
    (h : executeTask oracle st (writeTask p c) = .ok (st1, r)) :
    executeTask oracle st1 (readTask p) = .ok (st1, .text (some c)) := by
  simp [executeTask, writeTask] at h
  cases hw : writeFile st p c with
  | error e => rw [hw] at h; simp at h
  | ok st2 =>
    rw [hw] at h
    simp at h
    obtain ⟨rfl, _⟩ := h
    simp only [writeFile] at hw
    cases hmk : mkdirRecursive st.fs (dirname (resolvePath st.currentDir p)) with
    | error e => rw [hmk] at hw; simp at hw
    | ok fs1 =>
      rw [hmk] at hw
      simp at hw
      split at hw
      · simp at hw
      · simp only [Except.ok.injEq] at hw
        subst hw
        simp [executeTask, readTask, readFile, findFile]

/-- C6 witness: write `hi` to `a.txt` from `st0`, then read it back. -/
theorem c6_witness :
    executeTask oracle0 st1W (readTask "a.txt") = .ok (st1W, .text (some "hi")) :=
  c6_write_read_roundtrip oracle0 st0 "a.txt" "hi" st1W .undef (by decide)

/-- C3 counterexample: from `stC3`, whose `/w/t` is a regular file, the
`cd` task on `t` fails — `mkdirSync` throws on an existing file target,
so `cd` is not failure-free for every pre-existing target. -/
theorem c3_counterexample :
    changeDirectory stC3 "t" = .error .fsError := by decide

/-- C3 (amended): a `cd` task whose resolved target has no existing
regular file at the target path or at any ancestor of it never fails:
afterwards `currentDir` equals the target resolved against the previous
`currentDir`, and it is an existing directory (created, parents included,
when absent). -/
theorem c3_cd_creates_and_moves (st : AgentState) (p : String)
    (h : ∀ a ∈ pathAncestors (resolvePath st.currentDir p),
        findFile st.fs.files a = none) :
    ∃ st1, changeDirectory st p = .ok st1 ∧
      st1.currentDir = resolvePath st.currentDir p ∧
      st1.currentDir ∈ st1.fs.dirs := by
  by_cases hd : resolvePath st.currentDir p ∈ st.fs.dirs
  · exact ⟨{ st with currentDir := resolvePath st.currentDir p },
      by simp [changeDirectory, hd], rfl, hd⟩
  · have hmk : mkdirRecursive st.fs (resolvePath st.currentDir p)
        = .ok { st.fs with
            dirs := (pathAncestors (resolvePath st.currentDir p)).foldl
              addDir st.fs.dirs } := by
      unfold mkdirRecursive
      rw [if_neg]
      simp only [List.any_eq_true, not_exists]
      intro a
      rintro ⟨ha, hfa⟩
      rw [h a ha] at hfa
      simp at hfa
    refine ⟨{ currentDir := resolvePath st.currentDir p,
              fs := { st.fs with
                dirs := (pathAncestors (resolvePath st.currentDir p)).foldl
                  addDir st.fs.dirs } }, ?_, rfl, ?_⟩
    · simp [changeDirectory, hd, hmk]
    · exact mem_foldl_addDir _ _ _ (self_mem_pathAncestors _)

/-- C3 witness: `cd proj` from `st0` creates `/w/proj` and moves there. -/
theorem c3_witness :
    ∃ st1, changeDirectory st0 "proj" = .ok st1 ∧
      st1.currentDir = resolvePath st0.currentDir "proj" ∧
      st1.currentDir ∈ st1.fs.dirs :=
  c3_cd_creates_and_moves st0 "proj" (by decide)

/-- C10: the `contains` task trims its path before resolving — on any
state, `contains` with path `" App.jsx"` tests the same file as with
`"App.jsx"` — whereas `read`, `write`, `edit`, `cd` and `clean` all use
the path untrimmed, witnessed by concrete states where a leading space
changes each one's outcome. -/
theorem c10_only_contains_trims :
    (∀ (c : String) (st : AgentState),
        fileContains st " App.jsx" c = fileContains st "App.jsx" c) ∧
    readFile stT " App.jsx" ≠ readFile stT "App.jsx" ∧
    writeFile stT " new.txt" "x" ≠ writeFile stT "new.txt" "x" ∧
    editFile stT " App.jsx" "x" ≠ editFile stT "App.jsx" "x" ∧
    changeDirectory stT " d" ≠ changeDirectory stT "d" ∧
    cleanUp stT [" App.jsx"] ≠ cleanUp stT ["App.jsx"] := by
  refine ⟨?_, by decide, by decide, by decide, by decide, by decide⟩
  intro c st
  have h1 : jsTrim " App.jsx" = "App.jsx" := by decide
  have h2 : jsTrim "App.jsx" = "App.jsx" := by decide
  simp only [fileContains, h1, h2]

theorem runInner_extends (oracle : ShellOracle) (script : List PlannerOutput) :
    ∀ (msgs : List Msg) (st : AgentState),
      ∃ t, innerMsgs (runInner oracle script msgs st) = msgs ++ t ∧
        ∀ m ∈ t, m.role = Role.assistant := by
  induction script with
  | nil => intro msgs st; exact ⟨[], by simp [runInner, innerMsgs], by simp⟩
  | cons o rest ih =>
    intro msgs st
    cases o with
    | malformed => exact ⟨[], by simp [runInner, innerMsgs], by simp⟩
    | reply r =>
      by_cases hA : r.step = some "analyze"
      · obtain ⟨t, ht, hr⟩ := ih (msgs ++ [assistantMsg r]) st
        refine ⟨assistantMsg r :: t, ?_, ?_⟩
        · simp [runInner, hA, ht]
        · intro m hm
          rcases List.mem_cons.mp hm with rfl | hm2
          · rfl
          · exact hr m hm2
      · by_cases hC : r.step = some "convert"
        · obtain ⟨t, ht, hr⟩ := ih (msgs ++ [assistantMsg r]) st
          refine ⟨assistantMsg r :: t, ?_, ?_⟩
          · simp [runInner, hA, hC, ht]
          · intro m hm
            rcases List.mem_cons.mp hm with rfl | hm2
            · rfl
            · exact hr m hm2
        · by_cases hO : r.step = some "output"
          · exact ⟨[], by simp [runInner, hA, hC, hO, innerMsgs], by simp⟩
          · by_cases hAc : r.step = some "action"
            · by_cases hT : (truthyS r.fType && r.fInput.isSome) = true
              · cases hex : executeTask oracle st (replyTask r) with
                | error e =>
                  exact ⟨[],
                    by simp [runInner, hA, hC, hO, hAc, hT, hex, innerMsgs],
                    by simp⟩
                | ok pr =>
                  obtain ⟨st1, tr⟩ := pr
                  obtain ⟨t, ht, hr⟩ := ih (msgs ++ [assistantMsg r]) st1
                  refine ⟨assistantMsg r :: t, ?_, ?_⟩
                  · simp [runInner, hA, hC, hO, hAc, hT, hex, ht]
                  · intro m hm
                    rcases List.mem_cons.mp hm with rfl | hm2
                    · rfl
                    · exact hr m hm2
              · rw [Bool.not_eq_true] at hT
                obtain ⟨t, ht, hr⟩ := ih (msgs ++ [assistantMsg r]) st
                refine ⟨assistantMsg r :: t, ?_, ?_⟩
                · simp [runInner, hA, hC, hO, hAc, hT, ht]
                · intro m hm
                  rcases List.mem_cons.mp hm with rfl | hm2
                  · rfl
                  · exact hr m hm2
            · obtain ⟨t, ht, hr⟩ := ih msgs st
              exact ⟨t, by simp [runInner, hA, hC, hO, hAc, ht], hr⟩

theorem runOuter_extends (oracle : ShellOracle) (cycles : List Cycle) :
    ∀ (msgs : List Msg) (st : AgentState),
      ∃ t, outerMsgs (runOuter oracle cycles msgs st) = msgs ++ t ∧
        ∀ m ∈ t, m.role ≠ Role.system := by
  induction cycles with
  | nil => intro msgs st; exact ⟨[], by simp [runOuter, outerMsgs], by simp⟩
  | cons c rest ih =>
    intro msgs st
    by_cases hx : c.prompt = "exit"
    · exact ⟨[], by simp [runOuter, hx, outerMsgs], by simp⟩
    · obtain ⟨t1, ht1, hr1⟩ :=
        runInner_extends oracle c.outputs (msgs ++ [userMsg c.prompt]) st
      have hu : ∀ m ∈ userMsg c.prompt :: t1, m.role ≠ Role.system := by
        intro m hm
        rcases List.mem_cons.mp hm with rfl | hm2
        · simp [userMsg]
        · rw [hr1 m hm2]
          simp
      cases hres : runInner oracle c.outputs (msgs ++ [userMsg c.prompt]) st with
      | finished m2 s2 =>
        rw [hres] at ht1
        simp only [innerMsgs] at ht1
        subst ht1
        obtain ⟨t2, ht2, hr2⟩ := ih (msgs ++ [userMsg c.prompt] ++ t1) s2
        refine ⟨userMsg c.prompt :: (t1 ++ t2), ?_, ?_⟩
        · simp only [runOuter, outerMsgs] at ht2 ⊢
          rw [if_neg hx, hres, ht2]
          simp [List.append_assoc]
        · intro m hm
          rcases List.mem_cons.mp hm with rfl | hm2
          · simp [userMsg]
          · rcases List.mem_append.mp hm2 with h3 | h3
            · rw [hr1 m h3]; simp
            · exact hr2 m h3
      | crashed m2 s2 e =>
        rw [hres] at ht1
        simp only [innerMsgs] at ht1
        refine ⟨userMsg c.prompt :: t1, ?_, hu⟩
        simp [runOuter, hx, hres, outerMsgs, ht1]
      | pending m2 s2 =>
        rw [hres] at ht1
        simp only [innerMsgs] at ht1
        refine ⟨userMsg c.prompt :: t1, ?_, hu⟩
        simp [runOuter, hx, hres, outerMsgs, ht1]

theorem runInner_pending_length (oracle : ShellOracle) (script : List PlannerOutput) :
    ∀ (msgs : List Msg) (st : AgentState) (msgs2 : List Msg) (st2 : AgentState),
      (∀ o ∈ script, isIntermediateB o = true) →
      runInner oracle script msgs st = .pending msgs2 st2 →
      msgs2.length = msgs.length + script.length := by
  induction script with
  | nil =>
    intro msgs st msgs2 st2 _ h2
    simp [runInner] at h2
    simp [h2.1.symm]
  | cons o rest ih =>
    intro msgs st msgs2 st2 h1 h2
    cases o with
    | malformed =>
      have := h1 .malformed (List.mem_cons_self _ _)
      simp [isIntermediateB] at this
    | reply r =>
      have hstep := h1 (.reply r) (List.mem_cons_self _ _)
      simp only [isIntermediateB, Bool.or_eq_true, beq_iff_eq] at hstep
      have h1r : ∀ o ∈ rest, isIntermediateB o = true :=
        fun o ho => h1 o (List.mem_cons_of_mem _ ho)
      rcases hstep with (hA | hC) | hAc
      · simp only [runInner, hA] at h2
        simp at h2
        have := ih (msgs ++ [assistantMsg r]) st msgs2 st2 h1r h2
        simp only [List.length_append, List.length_cons, List.length_nil] at this ⊢
        omega
      · simp only [runInner, hC] at h2
        simp at h2
        have := ih (msgs ++ [assistantMsg r]) st msgs2 st2 h1r h2
        simp only [List.length_append, List.length_cons, List.length_nil] at this ⊢
        omega
      · by_cases hT : (truthyS r.fType && r.fInput.isSome) = true
        · cases hex : executeTask oracle st (replyTask r) with
          | error e =>
            simp only [runInner, hAc] at h2
            simp [hT, hex] at h2
          | ok pr =>
            obtain ⟨st1, tr⟩ := pr
            simp only [runInner, hAc] at h2
            simp [hT, hex] at h2
            have := ih (msgs ++ [assistantMsg r]) st1 msgs2 st2 h1r h2
            simp only [List.length_append, List.length_cons, List.length_nil] at this ⊢
            omega
        · rw [Bool.not_eq_true] at hT
          simp only [runInner, hAc] at h2
          simp [hT] at h2
          have := ih (msgs ++ [assistantMsg r]) st msgs2 st2 h1r h2
          simp only [List.length_append, List.length_cons, List.length_nil] at this ⊢
          omega

/-- C8: during one whole process lifetime the history only ever grows by
appending — every inner-loop and outer-loop run leaves the starting
history as a prefix of the final one — and a run started from the initial
history keeps the fixed system message as its unchanged first element and
contains exactly one system-role message. -/
theorem c8_history_append_only (oracle : ShellOracle) :
    (∀ (script : List PlannerOutput) (msgs : List Msg) (st : AgentState),
        msgs <+: innerMsgs (runInner oracle script msgs st)) ∧
    (∀ (cycles : List Cycle) (msgs : List Msg) (st : AgentState),
        msgs <+: outerMsgs (runOuter oracle cycles msgs st)) ∧
    (∀ (cycles : List Cycle) (st : AgentState),
        (outerMsgs (runOuter oracle cycles initialMessages st)).head?
          = some systemMsg) ∧
    (∀ (cycles : List Cycle) (st : AgentState),
        countSystem (outerMsgs (runOuter oracle cycles initialMessages st)) = 1) := by
  refine ⟨?_, ?_, ?_, ?_⟩
  · intro script msgs st
    obtain ⟨t, ht, _⟩ := runInner_extends oracle script msgs st
    exact ⟨t, ht.symm⟩
  · intro cycles msgs st
    obtain ⟨t, ht, _⟩ := runOuter_extends oracle cycles msgs st
    exact ⟨t, ht.symm⟩
  · intro cycles st
    obtain ⟨t, ht, _⟩ := runOuter_extends oracle cycles initialMessages st
    rw [ht]
    rfl
  · intro cycles st
    obtain ⟨t, ht, hr⟩ := runOuter_extends oracle cycles initialMessages st
    rw [ht]
    have hnil : t.filter (fun m => m.role == Role.system) = [] := by
      rw [List.filter_eq_nil_iff]
      intro m hm
      simp [hr m hm]
    simp [countSystem, initialMessages, List.filter_append, hnil, systemMsg]

/-- C7: starting from the history right after prompt ingestion (the system
message plus one user message), processing K intermediate replies — each
with step `analyze`, `convert` or `action` — without reaching a terminal
reply leaves the history at length 1 + 1 + K: one appended assistant
message per processed reply. -/
theorem c7_history_length (oracle : ShellOracle) (script : List PlannerOutput)
    (u : String) (st : AgentState) (msgs2 : List Msg) (st2 : AgentState)
    (h1 : ∀ o ∈ script, isIntermediateB o = true)
    (h2 : runInner oracle script (initialMessages ++ [userMsg u]) st
        = .pending msgs2 st2) :
    msgs2.length = 1 + 1 + script.length := by
  have := runInner_pending_length oracle script (initialMessages ++ [userMsg u])
    st msgs2 st2 h1 h2
  simp only [List.length_append, initialMessages, List.length_singleton] at this
  omega

/-- C7 witness: one analyze reply after the prompt `hi` leaves a history
of length 3 = 1 + 1 + 1. -/
theorem c7_witness :
    ([systemMsg, userMsg "hi", assistantMsg analyzeR] : List Msg).length
      = 1 + 1 + ([PlannerOutput.reply analyzeR] : List PlannerOutput).length :=
  c7_history_length oracle0 [.reply analyzeR] "hi" st0
    [systemMsg, userMsg "hi", assistantMsg analyzeR] st0 (by decide) (by decide)

/-- C1 counterexample: an action reply running the failing command
`false`, followed by a further planner reply, makes the inner loop crash
at the shell task — nothing is appended to the history and the remaining
reply is never requested, refuting the claim that the loop continues. -/
theorem c1_counterexample :
    runInner failOracle [.reply (shellActionReply "false"), .reply analyzeR]
        (initialMessages ++ [userMsg "run false"]) st0
      = .crashed (initialMessages ++ [userMsg "run false"]) st0
          (.shellFailure "false" "exit status 1") := by decide

/-- C1 (amended): a shell action whose command exits nonzero makes
`runShellCommand` reject with the `ShellFailure`; the rejection escapes
`executeTask` and the inner loop uncaught — the loop terminates in a
crash, the assistant action record (and the failure content) is never
appended to the history, and no further planner reply is requested. -/
theorem c1_shell_failure_crashes (oracle : ShellOracle) (cmd stderr : String)
    (rest : List PlannerOutput) (msgs : List Msg) (st : AgentState)
    (h : oracle cmd st.currentDir = .failure stderr) :
    runInner oracle (.reply (shellActionReply cmd) :: rest) msgs st
      = .crashed msgs st (.shellFailure cmd stderr) := by
  simp [runInner, shellActionReply, truthyS, replyTask, executeTask,
    runShellCommand, h]

/-- C1 witness: the command `false` under the always-failing oracle. -/
theorem c1_witness :
    runInner failOracle [.reply (shellActionReply "false")] initialMessages st0
      = .crashed initialMessages st0 (.shellFailure "false" "exit status 1") :=
  c1_shell_failure_crashes failOracle "false" "exit status 1" []
    initialMessages st0 rfl

/-- C2 counterexample: a malformed (non-JSON) planner reply crashes the
loop at `JSON.parse` — the remaining planner reply is never requested, so
there is no logged retry, refuting the recover-and-retry claim. -/
theorem c2_counterexample :
    runInner oracle0 [PlannerOutput.malformed, .reply analyzeR]
        initialMessages st0
      = .crashed initialMessages st0 .jsonError := by rfl

/-- C2 (amended): the loop has no protocol-violation handling.  A reply
that is not valid JSON throws out of `JSON.parse` uncaught and the loop
crashes immediately (no logging, no retry).  A parsed reply whose step is
missing or not one of `analyze`/`convert`/`output`/`action` (including
the nominally recognized value `exit`) matches no branch: nothing is
appended, nothing is logged, and the loop silently requests the next
reply with no retry bound. -/
theorem c2_no_violation_handling (oracle : ShellOracle) :
    (∀ (rest : List PlannerOutput) (msgs : List Msg) (st : AgentState),
        runInner oracle (.malformed :: rest) msgs st
          = .crashed msgs st .jsonError) ∧
    (∀ (r : Reply) (rest : List PlannerOutput) (msgs : List Msg) (st : AgentState),
        r.step ≠ some "analyze" → r.step ≠ some "convert" →
        r.step ≠ some "output" → r.step ≠ some "action" →
        runInner oracle (.reply r :: rest) msgs st
          = runInner oracle rest msgs st) := by
  constructor
  · intro rest msgs st
    rfl
  · intro r rest msgs st h1 h2 h3 h4
    simp [runInner, h1, h2, h3, h4]

/-- C2 witness: a reply with step `exit` is silently skipped and the loop
goes on exactly as it would on the rest of the script. -/
theorem c2_witness :
    runInner oracle0 [.reply exitR] initialMessages st0
      = runInner oracle0 [] initialMessages st0 :=
  (c2_no_violation_handling oracle0).2 exitR [] initialMessages st0
    (by decide) (by decide) (by decide) (by decide)

/-- C9: an action reply missing `fType` or `fInput` takes the warning
branch: no task is executed, the state is unchanged, the loop does not
abort, and the assistant message recording the reply is still appended
before the next planner reply is requested. -/
theorem c9_missing_fields_warn (oracle : ShellOracle) (r : Reply)
    (rest : List PlannerOutput) (msgs : List Msg) (st : AgentState)
    (h1 : r.step = some "action") (h2 : r.fType = none ∨ r.fInput = none) :
    runInner oracle (.reply r :: rest) msgs st
      = runInner oracle rest (msgs ++ [assistantMsg r]) st := by
  rcases h2 with h | h
  · simp [runInner, h1, h, truthyS]
  · simp [runInner, h1, h]

/-- C9 witness: the field-less action reply from `st0`. -/
theorem c9_witness :
    runInner oracle0 [.reply badActionR] initialMessages st0
      = runInner oracle0 [] (initialMessages ++ [assistantMsg badActionR]) st0 :=
  c9_missing_fields_warn oracle0 badActionR [] initialMessages st0
    rfl (Or.inl rfl)

end ReactAgent
